import Mathlib

/-!
Shallow embedding of `arch/arm/kernel/ipipe.c` (I-PIPE arch support for ARM)
and proofs about its operations.

Machine words (`unsigned long` bitmasks) are modelled as `Nat` with bitwise
operations; CPU masks (`cpumask_t`) as `Finset Nat`; side effects (handler
invocations, IPIs, trap notifications) as explicit event lists threaded
through the state.
-/

namespace IPipe

/-- Bit index of the stall flag inside a domain status word.
Modelled from the spec: `IPIPE_STALL_FLAG` comes from the ipipe domain
header, which is not part of the provided sources; the per-domain status
word carries a single "stall" bit whose index is immaterial to the claims. -/
def IPIPE_STALL_FLAG : Nat := 0

/-- Per-CPU root-domain execution state visible to the stall-flag
operations of `ipipe.c`:
* `hardOn` — the real hardware interrupt-enable flag of the local CPU
  (`hard_smp_local_irq_save` clears it and returns the old value,
  `hard_smp_local_irq_restore` writes it back);
* `status` — the per-CPU word `__ipipe_root_status` holding the stall bit;
* `pending` — the root domain's pending-IRQ log (none of the stall
  operations below touch it). -/
structure RootState where
  hardOn : Bool
  status : Nat
  pending : List Nat
deriving Repr, DecidableEq

/-- Embedding of `ipipe_stall_root` (ipipe.c lines 83-92): save-and-disable hardware
interrupts, set the stall bit with `__set_bit`, restore hardware
interrupts.  Besides the final state we return the list of hardware-flag
values observed at each write to `status` (one entry per write), so that
"the mutation runs with real interrupts disabled" is statable. -/
def ipipe_stall_root (s : RootState) : RootState × List Bool :=
  let flags := s.hardOn
  let s1 : RootState := { s with hardOn := false }
  let s2 : RootState := { s1 with status := s1.status ||| (1 <<< IPIPE_STALL_FLAG) }
  let writes := [s1.hardOn]
  ({ s2 with hardOn := flags }, writes)

/-- Embedding of `ipipe_test_and_stall_root` (ipipe.c lines 94-106): save-and-disable
hardware interrupts, `__test_and_set_bit` on the stall bit, restore.
Returns (previous bit value, final state, hardware-flag value at each
status write). -/
def ipipe_test_and_stall_root (s : RootState) : Bool × RootState × List Bool :=
  let flags := s.hardOn
  let s1 : RootState := { s with hardOn := false }
  let x := Nat.testBit s1.status IPIPE_STALL_FLAG
  let s2 : RootState := { s1 with status := s1.status ||| (1 <<< IPIPE_STALL_FLAG) }
  let writes := [s1.hardOn]
  (x, { s2 with hardOn := flags }, writes)

/-- Embedding of `ipipe_test_root` (ipipe.c lines 108-119): save-and-disable hardware
interrupts, `test_bit` on the stall bit, restore.  No write to `status`
occurs, hence the write log is empty. -/
def ipipe_test_root (s : RootState) : Bool × RootState × List Bool :=
  let flags := s.hardOn
  let s1 : RootState := { s with hardOn := false }
  let x := Nat.testBit s1.status IPIPE_STALL_FLAG
  (x, { s1 with hardOn := flags }, [])

/-- Values of `cpumask_t` are modelled as finite sets of CPU ids. -/
abbrev CpuMask := Finset Nat

/-- Result of `ipipe_set_irq_affinity`: whether a warning was emitted
(`WARN_ON_ONCE`) and the mask passed to the controller's
`irq_set_affinity` callback, if it was invoked at all. -/
structure AffinityResult where
  warned : Bool
  callbackArg : Option CpuMask
deriving DecidableEq

/-- Embedding of `ipipe_set_irq_affinity` (ipipe.c lines 155-166).
`hasSetAffinity` states whether `irq_get_chip(irq)->irq_set_affinity`
is non-NULL; `online` is `*cpu_online_mask`.  The callback itself is
external, so we record only whether and with which mask it is invoked
(it is invoked at most once: no retry). -/
def ipipe_set_irq_affinity (hasSetAffinity : Bool) (online : CpuMask)
    (cpumask : CpuMask) : AffinityResult :=
  if !hasSetAffinity then
    { warned := true, callbackArg := none }
  else
    let m := cpumask ∩ online
    if m = ∅ then
      { warned := true, callbackArg := none }
    else
      { warned := false, callbackArg := some m }

/-- Dispatch flag `IPIPE_IRQF_NOACK`.
Modelled from the spec: the flag constant lives in the ipipe header, not
in the provided sources; it is a distinguished nonzero bit telling
`__ipipe_dispatch_irq` to skip the acknowledge step. -/
def IPIPE_IRQF_NOACK : Nat := 1

/-- A call into the external dispatch engine `__ipipe_dispatch_irq`,
recorded as an event: which IRQ, which flag word, and the hardware
interrupt-enable state of the local CPU at the moment of the call. -/
structure DispatchEvent where
  irq : Nat
  flags : Nat
  hardOnAtCall : Bool
deriving Repr, DecidableEq

/-- Embedding of `ipipe_raise_irq` (ipipe.c lines 213-221): `hard_local_irq_save`,
`__ipipe_dispatch_irq(irq, IPIPE_IRQF_NOACK)`, `hard_local_irq_restore`.
Input is the caller's hardware interrupt-enable state; output is the
hardware state on return plus the recorded dispatch calls. -/
def ipipe_raise_irq (irq : Nat) (hardOn : Bool) : Bool × List DispatchEvent :=
  let flags := hardOn
  let hardOn1 := false
  let events := [{ irq := irq, flags := IPIPE_IRQF_NOACK, hardOnAtCall := hardOn1 }]
  (flags, events)

/-- Result of the domain-level irqdesc enable/disable operations:
whether the platform interrupt-controller muter hook was invoked (the
only way these functions touch hardware state) and whether any error /
warning was reported (the source contains no report path at all). -/
structure IrqdescResult where
  muterInvoked : Bool
  warned : Bool
deriving Repr, DecidableEq

/-- Embedding of `__ipipe_enable_irqdesc` (ipipe.c lines 249-258).  `hasDesc irq`
states whether `irq_to_desc(irq)` is non-NULL; `muterEnable` whether
`ipipe_pic_muter.enable_irqdesc` is a registered hook.  The function
returns early when the descriptor is absent, before consulting the
muter. -/
def __ipipe_enable_irqdesc (hasDesc : Nat → Bool) (muterEnable : Bool)
    (irq : Nat) : IrqdescResult :=
  if hasDesc irq = false then
    { muterInvoked := false, warned := false }
  else if muterEnable then
    { muterInvoked := true, warned := false }
  else
    { muterInvoked := false, warned := false }

/-- Embedding of `__ipipe_disable_irqdesc` (ipipe.c lines 260-265).  Unlike the
enable path, the source performs no `irq_to_desc` check: it invokes
`ipipe_pic_muter.disable_irqdesc` whenever that hook is registered.
`hasDesc` is accepted for symmetry with the enable operation but the
source never consults it. -/
def __ipipe_disable_irqdesc (hasDesc : Nat → Bool) (muterDisable : Bool)
    (irq : Nat) : IrqdescResult :=
  if muterDisable then
    { muterInvoked := true, warned := false }
  else
    { muterInvoked := false, warned := false }

/-- Bit index of the deferred-trap flag `PF_MAYDAY` in
`current->ipipe.flags`.
Modelled from the spec: the constant lives in the ipipe header, not in
the provided sources; it is a single bit and its index is immaterial. -/
def PF_MAYDAY : Nat := 0

/-- Trap number `IPIPE_TRAP_MAYDAY` passed to `__ipipe_notify_trap`.
Modelled from the spec: the constant lives in the ipipe header; its
value is immaterial, it only identifies the mayday trap notification. -/
def IPIPE_TRAP_MAYDAY : Nat := 0

/-- State threaded through the mayday-delivery paths: the task's
`ipipe.flags` word and the list of trap numbers delivered through the
external `__ipipe_notify_trap`. -/
structure MaydayState where
  taskFlags : Nat
  trapsNotified : List Nat
deriving Repr, DecidableEq

/-- The clear-and-notify step shared by both mayday paths:
`current->ipipe.flags &= ~PF_MAYDAY; __ipipe_notify_trap(IPIPE_TRAP_MAYDAY, regs)`. -/
def maydayClearNotify (s : MaydayState) : MaydayState :=
  { taskFlags := s.taskFlags                          -- flags &= ~PF_MAYDAY
      - (if Nat.testBit s.taskFlags PF_MAYDAY then 1 <<< PF_MAYDAY else 0),
    trapsNotified := s.trapsNotified ++ [IPIPE_TRAP_MAYDAY] }

/-- Embedding of `__ipipe_exit_irq` (ipipe.c lines 383-396): at generic IRQ exit, if
the interrupted context was user mode (`user_mode(regs)`) and the task
has `PF_MAYDAY` set, clear the flag and deliver the mayday trap
notification. -/
def __ipipe_exit_irq (userMode : Bool) (s : MaydayState) : MaydayState :=
  if userMode && Nat.testBit s.taskFlags PF_MAYDAY then
    maydayClearNotify s
  else
    s

/-- Tail of `__ipipe_syscall_root` (ipipe.c lines 329-381), restricted
to the mayday-relevant control flow.  `watched` states whether
`__ipipe_syscall_watched_p(current, regs->ARM_r7)` holds (otherwise the
function jumps straight to `out`, performing no notification and no
mayday check); `notify` is the effect of the external
`__ipipe_notify_syscall` on the task flags (a domain may set `PF_MAYDAY`
there).  After the notification the function disables hardware
interrupts and, if `PF_MAYDAY` is set, clears it and delivers the mayday
trap. -/
def __ipipe_syscall_root (watched : Bool) (notify : Nat → Nat)
    (s : MaydayState) : MaydayState :=
  if !watched then
    s
  else
    let s1 : MaydayState := { s with taskFlags := notify s.taskFlags }
    if Nat.testBit s1.taskFlags PF_MAYDAY then
      maydayClearNotify s1
    else
      s1

/-- ARM program-status-register I bit (`PSR_I_BIT`, value `0x80`): set
in a saved `cpsr` to mark IRQs as disabled in the recorded context. -/
def PSR_I_BIT : Nat := 0x80

/-- The register fields of `struct pt_regs` that `__ipipe_grab_irq`
snapshots into `tick_regs`. -/
structure Regs where
  cpsr : Nat
  pc : Nat
deriving Repr, DecidableEq

/-- Per-CPU state seen by `__ipipe_grab_irq`:
* `hrtimerIrq` — `p->hrtimer_irq`, `-1` while no timekeeping driver has
  registered a tick IRQ;
* `currIsRoot` — whether `p->curr == &p->root` (the CPU presently runs
  in the root domain);
* `tickRegs` — the saved register snapshot `p->tick_regs`. -/
structure GrabState where
  hrtimerIrq : Int
  currIsRoot : Bool
  tickRegs : Regs
deriving Repr, DecidableEq

/-- Embedding of `__ipipe_grab_irq` (ipipe.c lines 399-433), entered with hardware
interrupts off.  If `p->hrtimer_irq == -1` control jumps (`goto
copy_regs`) into the snapshot block; otherwise the snapshot block runs
only when `irq == p->hrtimer_irq`.  The snapshot records the
interrupted `cpsr` (with `PSR_I_BIT` forced on when the CPU was not in
the root domain) and `pc`.  Then `__ipipe_dispatch_irq(irq, 0)` runs;
tracing hooks and the trailing `__ipipe_exit_irq` (modelled separately
as `__ipipe_exit_irq`) do not touch `tick_regs`. -/
def __ipipe_grab_irq (irq : Nat) (regs : Regs) (s : GrabState) :
    GrabState × List DispatchEvent :=
  let s1 :=
    if s.hrtimerIrq = -1 ∨ (irq : Int) = s.hrtimerIrq then
      { s with tickRegs :=
          { cpsr := if s.currIsRoot then regs.cpsr else regs.cpsr ||| PSR_I_BIT,
            pc := regs.pc } }
    else s
  (s1, [{ irq := irq, flags := 0, hardOnAtCall := false }])

/-- Embedding of `struct __ipipe_vnmidata` (ipipe.c lines 62-66): the stack-allocated
broadcast descriptor.  The function pointer and argument are modelled as
identifiers (we record invocations instead of executing an arbitrary
function); `cpumask` is the rendezvous mask the targets drain. -/
structure VnmiData where
  fnId : Nat
  arg : Nat
  cpumask : CpuMask
deriving DecidableEq

/-- Global state shared by the vNMI machinery:
* `slot` — the published descriptor pointer `__ipipe_vnmi.data`
  (`none` = NULL);
* `calls` — trace of `fn` invocations, one `(cpu, fnId, arg)` entry per
  call of `data->fn(data->arg)` by a CPU;
* `ipis` — trace of `ipipe_send_ipi(IPIPE_SERVICE_VNMI, mask)` calls. -/
structure VnmiWorld where
  slot : Option VnmiData
  calls : List (Nat × Nat × Nat)
  ipis : List CpuMask
deriving DecidableEq

/-- Embedding of `__ipipe_do_vnmi` (ipipe.c lines 121-135) executed by CPU `cpu`:
under the reader lock, if a descriptor is published and the caller's CPU
is in its mask, run `fn(arg)` and clear the caller's own bit. -/
def __ipipe_do_vnmi (cpu : Nat) (w : VnmiWorld) : VnmiWorld :=
  match w.slot with
  | none => w
  | some d =>
    if cpu ∈ d.cpumask then
      { slot := some { d with cpumask := d.cpumask.erase cpu },
        calls := w.calls ++ [(cpu, d.fnId, d.arg)],
        ipis := w.ipis }
    else w

/-- An interleaved execution of vNMI service routines: each element of
the schedule is the id of a CPU running `__ipipe_do_vnmi` once (a CPU
may appear any number of times, modelling repeated or spurious service
invocations). -/
def runVnmi (sched : List Nat) (w : VnmiWorld) : VnmiWorld :=
  sched.foldl (fun w c => __ipipe_do_vnmi c w) w

/-- Number of times `fn` has been run on CPU `c` in a call trace. -/
def countCalls (c : Nat) (calls : List (Nat × Nat × Nat)) : Nat :=
  (calls.filter (fun e => e.1 = c)).length

/-- Embedding of `__ipipe_send_vnmi` (ipipe.c lines 168-205), the locked section
after the broadcast spinlock has been acquired (the acquisition loop of
lines 178-182 is modelled separately as `vnmiSpinIter` /
`vnmiSpinAcquire`).  `cpu` is the calling CPU (`ipipe_processor_id()`);
`sched` is the interleaving of remote `__ipipe_do_vnmi` executions
between the IPI and the completion of the busy-wait.  The caller
removes itself from the target mask; with an empty remaining mask it
returns at once, publishing nothing and sending no IPI.  Otherwise it
publishes the descriptor, sends the IPI, busy-waits until the mask is
drained — `none` models the call not returning because the schedule
never empties the mask — and withdraws the descriptor before
returning. -/
def __ipipe_send_vnmi (fnId arg : Nat) (cpumask : CpuMask) (cpu : Nat)
    (sched : List Nat) (w : VnmiWorld) : Option VnmiWorld :=
  let mask := cpumask.erase cpu
  if mask = ∅ then
    some w
  else
    let w1 : VnmiWorld := { w with slot := some ⟨fnId, arg, mask⟩ }
    let w2 : VnmiWorld := { w1 with ipis := w1.ipis ++ [mask] }
    let w3 := runVnmi sched w2
    match w3.slot with
    | some d =>
      if d.cpumask = ∅ then
        some { w3 with slot := none }
      else
        none
    | none => none

/-- One failed iteration of the lock-acquisition loop of
`__ipipe_send_vnmi` (ipipe.c lines 178-182): `spin_trylock_irqsave`
failed; if the local CPU currently has hardware interrupts disabled
(`hard_irqs_disabled()`), run `__ipipe_do_vnmi` locally before
`cpu_relax()` and the retry. -/
def vnmiSpinIter (hardOff : Bool) (cpu : Nat) (w : VnmiWorld) : VnmiWorld :=
  if hardOff then __ipipe_do_vnmi cpu w else w

/-- The whole lock-acquisition loop: `tries` lists the successive
`spin_trylock_irqsave` outcomes (`true` = acquired).  Each failed
attempt runs one `vnmiSpinIter`; the loop exits at the first success. -/
def vnmiSpinAcquire (hardOff : Bool) (cpu : Nat) (tries : List Bool)
    (w : VnmiWorld) : VnmiWorld :=
  match tries with
  | [] => w
  | true :: _ => w
  | false :: rest => vnmiSpinAcquire hardOff cpu rest (vnmiSpinIter hardOff cpu w)

/-! ### Helper lemmas -/

/-- Setting an already-set bit with `|||` leaves the word unchanged. -/
lemma or_shiftLeft_eq_of_testBit {x : Nat} {i : Nat}
    (h : Nat.testBit x i = true) : x ||| (1 <<< i) = x := by
  apply Nat.eq_of_testBit_eq
  intro j
  rw [Nat.testBit_or, Nat.one_shiftLeft, Nat.testBit_two_pow]
  by_cases hj : i = j
  · subst hj; simp [h]
  · simp [hj]

/-- Applying `testBit` after `|||` with the same single bit gives `true`. -/
lemma testBit_or_shiftLeft_self (x i : Nat) :
    Nat.testBit (x ||| (1 <<< i)) i = true := by
  rw [Nat.testBit_or, Nat.one_shiftLeft, Nat.testBit_two_pow]
  simp

/-! ### Theorems for the claims -/

/-- C7: for every prior per-CPU root state, `ipipe_test_and_stall_root`
returns the previous value of the stall flag and leaves the flag set,
and its only write to the status word happens while the hardware
interrupt flag is off, with the caller's hardware state restored on
return; `ipipe_test_root` returns the current flag value and leaves the
whole state unchanged, performing no write. -/
theorem stall_flag_test_ops (s : RootState) :
    (ipipe_test_and_stall_root s).1 = Nat.testBit s.status IPIPE_STALL_FLAG ∧
    Nat.testBit (ipipe_test_and_stall_root s).2.1.status IPIPE_STALL_FLAG = true ∧
    (ipipe_test_and_stall_root s).2.2 = [false] ∧
    (ipipe_test_and_stall_root s).2.1.hardOn = s.hardOn ∧
    (ipipe_test_root s).1 = Nat.testBit s.status IPIPE_STALL_FLAG ∧
    (ipipe_test_root s).2.1 = s ∧
    (ipipe_test_root s).2.2 = [] := by
  refine ⟨rfl, ?_, rfl, rfl, rfl, rfl, rfl⟩
  exact testBit_or_shiftLeft_self s.status IPIPE_STALL_FLAG

/-- C8: `ipipe_stall_root` on an already-stalled root domain is a no-op:
the resulting per-CPU state (status word with its stall flag, pending
log, and hardware flag) equals the state before the call. -/
theorem stall_idempotent (s : RootState)
    (h : Nat.testBit s.status IPIPE_STALL_FLAG = true) :
    (ipipe_stall_root s).1 = s := by
  unfold ipipe_stall_root
  simp [or_shiftLeft_eq_of_testBit h]

/-- Witness for `stall_idempotent` at the concrete state with status
word `1` (stall bit set). -/
theorem stall_idempotent_witness :
    Nat.testBit (1 : Nat) IPIPE_STALL_FLAG = true ∧
    (ipipe_stall_root ⟨true, 1, [4, 2]⟩).1 = ⟨true, 1, [4, 2]⟩ :=
  ⟨by decide, stall_idempotent ⟨true, 1, [4, 2]⟩ (by decide)⟩

/-- C9: `ipipe_set_irq_affinity` warns and returns without invoking the
controller callback when the controller has no set-affinity primitive
or when the requested mask is empty after intersecting with the online
mask; otherwise it invokes the callback exactly once, with the
intersected mask and without warning. -/
theorem set_irq_affinity_policy (hasSetAffinity : Bool) (online cpumask : CpuMask) :
    ((hasSetAffinity = false ∨ cpumask ∩ online = ∅) →
      ipipe_set_irq_affinity hasSetAffinity online cpumask =
        { warned := true, callbackArg := none }) ∧
    (hasSetAffinity = true → cpumask ∩ online ≠ ∅ →
      ipipe_set_irq_affinity hasSetAffinity online cpumask =
        { warned := false, callbackArg := some (cpumask ∩ online) }) := by
  constructor
  · rintro (h | h) <;> simp [ipipe_set_irq_affinity, h]
  · intro h h'
    simp [ipipe_set_irq_affinity, h, h']

/-- Witness for `set_irq_affinity_policy` at a concrete configuration:
controller supports affinity, requested mask `{0, 2}` intersected with
online mask `{0, 1}` yields `{0}`. -/
theorem set_irq_affinity_policy_witness :
    (({0, 2} : CpuMask) ∩ {0, 1} ≠ ∅) ∧
    ipipe_set_irq_affinity true {0, 1} {0, 2} =
      { warned := false, callbackArg := some (({0, 2} : CpuMask) ∩ {0, 1}) } :=
  ⟨by decide, (set_irq_affinity_policy true {0, 1} {0, 2}).2 rfl (by decide)⟩

/-- C4: `ipipe_raise_irq` performs exactly one call into the dispatch
engine, with the `IPIPE_IRQF_NOACK` flag set and the hardware interrupt
flag off at the moment of the call, and returns with the caller's
hardware interrupt state restored to its prior value. -/
theorem raise_irq_noack_dispatch (irq : Nat) (hardOn : Bool) :
    (ipipe_raise_irq irq hardOn).1 = hardOn ∧
    (ipipe_raise_irq irq hardOn).2 =
      [{ irq := irq, flags := IPIPE_IRQF_NOACK, hardOnAtCall := false }] ∧
    Nat.testBit IPIPE_IRQF_NOACK 0 = true :=
  ⟨rfl, rfl, by decide⟩

/-- C5 counterexample: for IRQ 7 with no descriptor (`hasDesc` is
constantly `false`) but a registered muter disable hook,
`__ipipe_disable_irqdesc` invokes the hook — the source performs no
`irq_to_desc` presence check on the disable path, so the operation is
not a no-op there, refuting the claim as stated. -/
theorem irqdesc_disable_counterexample :
    ¬ ((__ipipe_disable_irqdesc (fun _ => false) true 7).muterInvoked = false) := by
  decide

/-- C5 amended: for every IRQ with no descriptor, the enable operation
checks descriptor presence and is a no-op that reports no error, while
the disable operation performs no descriptor check — it invokes the
muter disable hook exactly when one is registered, regardless of
descriptor presence, and also reports no error. -/
theorem irqdesc_noop_amended (hasDesc : Nat → Bool) (muterEnable muterDisable : Bool)
    (irq : Nat) (h : hasDesc irq = false) :
    __ipipe_enable_irqdesc hasDesc muterEnable irq =
      { muterInvoked := false, warned := false } ∧
    __ipipe_disable_irqdesc hasDesc muterDisable irq =
      { muterInvoked := muterDisable, warned := false } := by
  constructor
  · simp [__ipipe_enable_irqdesc, h]
  · cases muterDisable <;> simp [__ipipe_disable_irqdesc]

/-- Witness for `irqdesc_noop_amended` at IRQ 7 with no descriptor,
muter enable hook registered and muter disable hook registered. -/
theorem irqdesc_noop_amended_witness :
    ((fun _ : Nat => false) 7 = false) ∧
    (__ipipe_enable_irqdesc (fun _ => false) true 7 =
      { muterInvoked := false, warned := false } ∧
    __ipipe_disable_irqdesc (fun _ => false) true 7 =
      { muterInvoked := true, warned := false }) :=
  ⟨rfl, irqdesc_noop_amended (fun _ => false) true true 7 rfl⟩

/-- Subtracting a set bit 0 clears bit 0. -/
lemma testBit_zero_sub_one {x : Nat} (h : Nat.testBit x 0 = true) :
    Nat.testBit (x - 1) 0 = false := by
  rw [Nat.testBit_zero] at h ⊢
  simp only [decide_eq_true_eq] at h
  simp only [decide_eq_false_iff_not]
  omega

/-- The clear-and-notify step leaves the mayday bit cleared and appends
exactly one mayday trap notification. -/
lemma maydayClearNotify_spec (s : MaydayState) :
    Nat.testBit (maydayClearNotify s).taskFlags PF_MAYDAY = false ∨
      Nat.testBit s.taskFlags PF_MAYDAY = false := by
  by_cases h : Nat.testBit s.taskFlags PF_MAYDAY = true
  · left
    have hm : s.taskFlags % 2 = 1 := by
      have h' := h
      simp only [PF_MAYDAY, Nat.testBit_zero, decide_eq_true_eq] at h'
      exact h'
    have e : (maydayClearNotify s).taskFlags = s.taskFlags - 1 := by
      unfold maydayClearNotify
      simp [h, hm, PF_MAYDAY]
    rw [e]
    exact testBit_zero_sub_one (by simpa [PF_MAYDAY] using h)
  · right
    simpa using h

/-- C6: a pending mayday flag is never carried past the next
return-to-user boundary: at generic IRQ exit (`__ipipe_exit_irq`), if
the interrupted context was user mode and the task's mayday flag is
set, the flag is cleared and exactly one mayday trap notification is
delivered; at the tail of the watched-syscall notification path
(`__ipipe_syscall_root`) the same check runs after the external
syscall notification, so the returned task state never carries the
flag and, whenever it was set there, the mayday trap is delivered. -/
theorem mayday_cleared_at_boundaries (s : MaydayState) (userMode watched : Bool)
    (notify : Nat → Nat) :
    (userMode = true → Nat.testBit s.taskFlags PF_MAYDAY = true →
      Nat.testBit (__ipipe_exit_irq userMode s).taskFlags PF_MAYDAY = false ∧
      (__ipipe_exit_irq userMode s).trapsNotified =
        s.trapsNotified ++ [IPIPE_TRAP_MAYDAY]) ∧
    (watched = true →
      Nat.testBit (__ipipe_syscall_root watched notify s).taskFlags PF_MAYDAY = false ∧
      (Nat.testBit (notify s.taskFlags) PF_MAYDAY = true →
        (__ipipe_syscall_root watched notify s).trapsNotified =
          s.trapsNotified ++ [IPIPE_TRAP_MAYDAY])) := by
  constructor
  · intro hu hm
    unfold __ipipe_exit_irq
    simp only [hu, hm, Bool.and_self, if_true, true_and]
    constructor
    · rcases maydayClearNotify_spec s with h | h
      · exact h
      · rw [hm] at h; cases h
    · rfl
  · intro hw
    unfold __ipipe_syscall_root
    simp only [hw, Bool.not_true, Bool.false_eq_true, if_false]
    by_cases hm : Nat.testBit (notify s.taskFlags) PF_MAYDAY = true
    · simp only [hm, if_true]
      refine ⟨?_, fun _ => rfl⟩
      rcases maydayClearNotify_spec { s with taskFlags := notify s.taskFlags } with h | h
      · exact h
      · rw [hm] at h; cases h
    · simp only [hm, if_false]
      rw [Bool.not_eq_true] at hm
      exact ⟨hm, fun h => absurd h (by simp [hm])⟩

/-- Witness for `mayday_cleared_at_boundaries`: the task enters IRQ
exit from user mode with the mayday flag set (`taskFlags = 1`), and the
watched syscall path with a notification that sets the flag. -/
theorem mayday_cleared_at_boundaries_witness :
    (Nat.testBit (1 : Nat) PF_MAYDAY = true ∧
      Nat.testBit (__ipipe_exit_irq true ⟨1, []⟩).taskFlags PF_MAYDAY = false ∧
      (__ipipe_exit_irq true ⟨1, []⟩).trapsNotified = [] ++ [IPIPE_TRAP_MAYDAY]) ∧
    (Nat.testBit (__ipipe_syscall_root true (fun _ => 1) ⟨0, []⟩).taskFlags
        PF_MAYDAY = false) := by
  have h := mayday_cleared_at_boundaries ⟨1, []⟩ true true (fun _ => 1)
  have h' := mayday_cleared_at_boundaries ⟨0, []⟩ true true (fun _ => 1)
  exact ⟨⟨by decide, h.1 rfl (by decide)⟩, (h'.2 rfl).1⟩

/-- C10 counterexample: with no hrtimer IRQ registered
(`hrtimer_irq = -1`), IRQ 5 — which is not the registered tick IRQ —
still updates `tick_regs` (the `goto copy_regs` path), refuting the
claimed "updated only for the tick IRQ" direction. -/
theorem grab_irq_tick_regs_counterexample :
    ((5 : Int) ≠ (-1 : Int)) ∧
    ¬ ((__ipipe_grab_irq 5 ⟨7, 9⟩ ⟨-1, true, ⟨0, 0⟩⟩).1.tickRegs = ⟨0, 0⟩) := by
  decide

/-- C10 amended: `__ipipe_grab_irq` updates the per-CPU `tick_regs`
snapshot exactly when the IRQ is the CPU's registered hrtimer IRQ or
no hrtimer IRQ is registered at all (`hrtimer_irq = -1`, in which case
every IRQ takes the snapshot); in the update the saved `cpsr` gets
`PSR_I_BIT` forced on unless the CPU runs in the root domain; for any
other IRQ the whole per-CPU state is left unchanged.  In every case the
dispatch engine is entered exactly once, with hardware interrupts off
and no NOACK flag. -/
theorem grab_irq_tick_regs_amended (irq : Nat) (regs : Regs) (s : GrabState) :
    ((s.hrtimerIrq = -1 ∨ (irq : Int) = s.hrtimerIrq) →
      (__ipipe_grab_irq irq regs s).1 =
        { s with tickRegs :=
            { cpsr := if s.currIsRoot then regs.cpsr else regs.cpsr ||| PSR_I_BIT,
              pc := regs.pc } }) ∧
    (s.hrtimerIrq ≠ -1 → (irq : Int) ≠ s.hrtimerIrq →
      (__ipipe_grab_irq irq regs s).1 = s) ∧
    (__ipipe_grab_irq irq regs s).2 =
      [{ irq := irq, flags := 0, hardOnAtCall := false }] := by
  refine ⟨?_, ?_, rfl⟩
  · intro h
    unfold __ipipe_grab_irq
    simp only [h, if_true]
  · intro h1 h2
    unfold __ipipe_grab_irq
    have : ¬ (s.hrtimerIrq = -1 ∨ (irq : Int) = s.hrtimerIrq) := by
      rintro (h | h)
      · exact h1 h
      · exact h2 h
    simp only [this, if_false]

/-- Witness for `grab_irq_tick_regs_amended`: hrtimer IRQ 3 is
registered and IRQ 5 arrives, leaving `tick_regs` unchanged. -/
theorem grab_irq_tick_regs_amended_witness :
    ((3 : Int) ≠ -1) ∧ ((5 : Nat) : Int) ≠ (3 : Int) ∧
    (__ipipe_grab_irq 5 ⟨7, 9⟩ ⟨3, true, ⟨0, 0⟩⟩).1 = ⟨3, true, ⟨0, 0⟩⟩ :=
  ⟨by decide, by decide,
    (grab_irq_tick_regs_amended 5 ⟨7, 9⟩ ⟨3, true, ⟨0, 0⟩⟩).2.1
      (by decide) (by decide)⟩

/-- Call counts add over trace concatenation. -/
lemma countCalls_append (c : Nat) (l1 l2 : List (Nat × Nat × Nat)) :
    countCalls c (l1 ++ l2) = countCalls c l1 + countCalls c l2 := by
  simp [countCalls, List.filter_append]

/-- Call count of a one-element trace. -/
lemma countCalls_single (c c0 f a : Nat) :
    countCalls c [(c0, f, a)] = if c0 = c then 1 else 0 := by
  by_cases h : c0 = c <;> simp [countCalls, h]

/-- Invariant of an interleaved vNMI service run starting from a
published descriptor: the descriptor stays published with a shrinking
mask, the IPI trace is untouched, and each CPU's call count grows by
one exactly when that CPU left the mask during the run. -/
lemma runVnmi_spec (sched : List Nat) :
    ∀ (fnId arg : Nat) (m0 : CpuMask) (cs : List (Nat × Nat × Nat))
      (ips : List CpuMask),
      ∃ m : CpuMask, ∃ cs' : List (Nat × Nat × Nat),
        runVnmi sched ⟨some ⟨fnId, arg, m0⟩, cs, ips⟩ =
          ⟨some ⟨fnId, arg, m⟩, cs', ips⟩ ∧
        m ⊆ m0 ∧
        ∀ c, countCalls c cs' =
          countCalls c cs + (if c ∈ m0 ∧ c ∉ m then 1 else 0) := by
  induction sched with
  | nil =>
    intro f a m0 cs ips
    refine ⟨m0, cs, rfl, Finset.Subset.refl m0, fun c => ?_⟩
    by_cases h : c ∈ m0 <;> simp [h]
  | cons c0 rest ih =>
    intro f a m0 cs ips
    by_cases hc : c0 ∈ m0
    · have hstep : runVnmi (c0 :: rest) ⟨some ⟨f, a, m0⟩, cs, ips⟩ =
          runVnmi rest ⟨some ⟨f, a, m0.erase c0⟩, cs ++ [(c0, f, a)], ips⟩ := by
        simp [runVnmi, __ipipe_do_vnmi, hc]
      obtain ⟨m, cs', heq, hsub, hcnt⟩ := ih f a (m0.erase c0) (cs ++ [(c0, f, a)]) ips
      refine ⟨m, cs', hstep.trans heq, hsub.trans (Finset.erase_subset c0 m0), fun c => ?_⟩
      rw [hcnt c, countCalls_append, countCalls_single]
      by_cases hcc : c = c0
      · subst hcc
        have hnm : c ∉ m := fun hmem => (Finset.not_mem_erase c m0) (hsub hmem)
        simp [hc, hnm, Finset.not_mem_erase]
      · have hiff : c ∈ m0.erase c0 ↔ c ∈ m0 := by
          rw [Finset.mem_erase]
          exact ⟨fun h => h.2, fun h => ⟨hcc, h⟩⟩
        have hne : ¬ (c0 = c) := fun h => hcc h.symm
        by_cases h1 : c ∈ m0 <;> by_cases h2 : c ∈ m <;>
          simp [hne, hiff, h1, h2]
    · have hstep : runVnmi (c0 :: rest) ⟨some ⟨f, a, m0⟩, cs, ips⟩ =
          runVnmi rest ⟨some ⟨f, a, m0⟩, cs, ips⟩ := by
        simp [runVnmi, __ipipe_do_vnmi, hc]
      obtain ⟨m, cs', heq, hsub, hcnt⟩ := ih f a m0 cs ips
      exact ⟨m, cs', hstep.trans heq, hsub, hcnt⟩

/-- C3: whenever `__ipipe_send_vnmi` returns, the shared broadcast
descriptor pointer `__ipipe_vnmi.data` is NULL: on the normal path the
published descriptor is withdrawn before the call returns, and when the
target mask becomes empty after removing the calling CPU the call
returns with the world unchanged — nothing published, no IPI sent.
The hypothesis `w.slot = none` is the invariant guarded by the
broadcast spinlock: no other descriptor is live while the lock is
held. -/
theorem send_vnmi_slot_null_on_return (fnId arg : Nat) (cpumask : CpuMask)
    (cpu : Nat) (sched : List Nat) (w w' : VnmiWorld)
    (hslot : w.slot = none)
    (hret : __ipipe_send_vnmi fnId arg cpumask cpu sched w = some w') :
    w'.slot = none ∧ (cpumask.erase cpu = ∅ → w' = w) := by
  unfold __ipipe_send_vnmi at hret
  by_cases hm : cpumask.erase cpu = ∅
  · simp only [hm, if_true] at hret
    have hw : w' = w := by
      injection hret with h
      exact h.symm
    subst hw
    exact ⟨hslot, fun _ => rfl⟩
  · simp only [hm, if_false] at hret
    obtain ⟨m, cs', heq, hsub, hcnt⟩ :=
      runVnmi_spec sched fnId arg (cpumask.erase cpu) w.calls
        (w.ipis ++ [cpumask.erase cpu])
    rw [heq] at hret
    by_cases hm0 : m = ∅
    · simp only [hm0, if_true] at hret
      have hw : w' = ⟨none, cs', w.ipis ++ [cpumask.erase cpu]⟩ := by
        injection hret with h
        exact h.symm
      subst hw
      exact ⟨rfl, fun h => absurd h hm⟩
    · simp only [hm0, if_false] at hret
      cases hret

/-- Witness for `send_vnmi_slot_null_on_return`: CPU 0 broadcasts to
mask `{0, 1}` from an idle world; CPU 1 services the request and the
call returns with the descriptor withdrawn. -/
theorem send_vnmi_slot_null_on_return_witness :
    ((⟨none, [], []⟩ : VnmiWorld).slot = none) ∧
    (__ipipe_send_vnmi 5 7 {0, 1} 0 [1] ⟨none, [], []⟩ =
      some ⟨none, [(1, 5, 7)], [{1}]⟩) ∧
    ((⟨none, [(1, 5, 7)], [{1}]⟩ : VnmiWorld).slot = none) :=
  ⟨rfl, by decide,
    (send_vnmi_slot_null_on_return 5 7 {0, 1} 0 [1] ⟨none, [], []⟩
      ⟨none, [(1, 5, 7)], [{1}]⟩ rfl (by decide)).1⟩

/-- C1: for a virtual-NMI broadcast `__ipipe_send_vnmi(fn, mask, arg)`
issued from CPU `cpu`, if the call returns (`some w'` — the busy-wait
requires every target to have cleared its own bit), then `fn` has run
exactly once on every CPU of the mask other than the sender, and has
not run on the sender or on any CPU outside the mask, whatever the
interleaving `sched` of service-routine executions.  The hypothesis
`w.slot = none` is the invariant guarded by the broadcast spinlock. -/
theorem vnmi_broadcast_exactly_once (fnId arg : Nat) (cpumask : CpuMask)
    (cpu : Nat) (sched : List Nat) (w w' : VnmiWorld)
    (hslot : w.slot = none)
    (hret : __ipipe_send_vnmi fnId arg cpumask cpu sched w = some w') :
    (∀ c ∈ cpumask.erase cpu, countCalls c w'.calls = countCalls c w.calls + 1) ∧
    (∀ c, c ∉ cpumask.erase cpu → countCalls c w'.calls = countCalls c w.calls) ∧
    countCalls cpu w'.calls = countCalls cpu w.calls := by
  unfold __ipipe_send_vnmi at hret
  by_cases hm : cpumask.erase cpu = ∅
  · simp only [hm, if_true] at hret
    have hw : w' = w := by
      injection hret with h
      exact h.symm
    subst hw
    exact ⟨fun c hc => absurd hc (by simp [hm]), fun c _ => rfl, rfl⟩
  · simp only [hm, if_false] at hret
    obtain ⟨m, cs', heq, hsub, hcnt⟩ :=
      runVnmi_spec sched fnId arg (cpumask.erase cpu) w.calls
        (w.ipis ++ [cpumask.erase cpu])
    rw [heq] at hret
    by_cases hm0 : m = ∅
    · simp only [hm0, if_true] at hret
      have hw : w' = ⟨none, cs', w.ipis ++ [cpumask.erase cpu]⟩ := by
        injection hret with h
        exact h.symm
      subst hw
      refine ⟨fun c hc => ?_, fun c hc => ?_, ?_⟩
      · rw [hcnt c]
        simp [hc, hm0]
      · rw [hcnt c]
        simp [hc]
      · rw [hcnt cpu]
        simp [Finset.not_mem_erase]
    · simp only [hm0, if_false] at hret
      cases hret

/-- Witness for `vnmi_broadcast_exactly_once`: CPU 0 broadcasts to mask
`{0, 1, 2}`; CPUs 1 and 2 each service once (CPU 2 also re-enters
spuriously), and on return `fn` has run exactly once on CPU 1 and CPU 2
and never on the sending CPU 0. -/
theorem vnmi_broadcast_exactly_once_witness :
    (__ipipe_send_vnmi 5 7 {0, 1, 2} 0 [2, 1, 2] ⟨none, [], []⟩ =
      some ⟨none, [(2, 5, 7), (1, 5, 7)], [{1, 2}]⟩) ∧
    countCalls 1 [(2, 5, 7), (1, 5, 7)] = countCalls 1 [] + 1 ∧
    countCalls 2 [(2, 5, 7), (1, 5, 7)] = countCalls 2 [] + 1 ∧
    countCalls 0 [(2, 5, 7), (1, 5, 7)] = countCalls 0 [] := by
  have h := vnmi_broadcast_exactly_once 5 7 {0, 1, 2} 0 [2, 1, 2]
    ⟨none, [], []⟩ ⟨none, [(2, 5, 7), (1, 5, 7)], [{1, 2}]⟩ rfl (by decide)
  exact ⟨by decide, h.1 1 (by decide), h.1 2 (by decide), h.2.2⟩

/-- A single service-routine execution never decreases any CPU's call
count. -/
lemma countCalls_do_vnmi_mono (c cpu : Nat) (w : VnmiWorld) :
    countCalls c w.calls ≤ countCalls c (__ipipe_do_vnmi cpu w).calls := by
  cases hs : w.slot with
  | none => simp [__ipipe_do_vnmi, hs]
  | some d =>
    by_cases hc : cpu ∈ d.cpumask <;>
      simp [__ipipe_do_vnmi, hs, hc, countCalls_append]

/-- The lock-acquisition loop never decreases any CPU's call count. -/
lemma countCalls_spinAcquire_mono (hardOff : Bool) (c cpu : Nat)
    (tries : List Bool) :
    ∀ w : VnmiWorld,
      countCalls c w.calls ≤ countCalls c (vnmiSpinAcquire hardOff cpu tries w).calls := by
  induction tries with
  | nil => intro w; simp [vnmiSpinAcquire]
  | cons t rest ih =>
    intro w
    cases t
    · have hstep : vnmiSpinAcquire hardOff cpu (false :: rest) w =
          vnmiSpinAcquire hardOff cpu rest (vnmiSpinIter hardOff cpu w) := rfl
      rw [hstep]
      refine Nat.le_trans ?_ (ih (vnmiSpinIter hardOff cpu w))
      unfold vnmiSpinIter
      cases hardOff
      · simp
      · simpa using countCalls_do_vnmi_mono c cpu w
    · simp [vnmiSpinAcquire]

/-- C2: while `__ipipe_send_vnmi` spins for the broadcast lock, each
failed-retry iteration executed with hardware interrupts disabled runs
the vNMI service routine locally: a broadcast pending for the spinning
CPU is serviced — `fn` runs there and the CPU clears its own bit —
before the lock is retried, and over the whole acquisition loop the
spinning CPU's call count therefore grows; with hardware interrupts
enabled the iteration leaves the world untouched. -/
theorem vnmi_spin_services_pending (cpu : Nat) (w : VnmiWorld) (d : VnmiData)
    (tries : List Bool) (hslot : w.slot = some d) (hin : cpu ∈ d.cpumask) :
    (vnmiSpinIter true cpu w).calls = w.calls ++ [(cpu, d.fnId, d.arg)] ∧
    (vnmiSpinIter true cpu w).slot = some ⟨d.fnId, d.arg, d.cpumask.erase cpu⟩ ∧
    vnmiSpinIter false cpu w = w ∧
    countCalls cpu w.calls + 1 ≤
      countCalls cpu (vnmiSpinAcquire true cpu (false :: tries) w).calls := by
  have hiter : vnmiSpinIter true cpu w =
      ⟨some ⟨d.fnId, d.arg, d.cpumask.erase cpu⟩,
        w.calls ++ [(cpu, d.fnId, d.arg)], w.ipis⟩ := by
    simp [vnmiSpinIter, __ipipe_do_vnmi, hslot, hin]
  refine ⟨by rw [hiter], by rw [hiter], rfl, ?_⟩
  have hstep : vnmiSpinAcquire true cpu (false :: tries) w =
      vnmiSpinAcquire true cpu tries (vnmiSpinIter true cpu w) := rfl
  rw [hstep]
  refine Nat.le_trans ?_ (countCalls_spinAcquire_mono true cpu cpu tries _)
  rw [hiter]
  simp [countCalls_append, countCalls_single]

/-- Witness for `vnmi_spin_services_pending`: CPU 2 spins for the lock
with hardware interrupts disabled while a broadcast targeting `{2}` is
pending; one failed try services it. -/
theorem vnmi_spin_services_pending_witness :
    ((⟨some ⟨5, 7, {2}⟩, [], []⟩ : VnmiWorld).slot = some ⟨5, 7, {2}⟩) ∧
    ((2 : Nat) ∈ (⟨5, 7, {2}⟩ : VnmiData).cpumask) ∧
    countCalls 2 (⟨some ⟨5, 7, {2}⟩, [], []⟩ : VnmiWorld).calls + 1 ≤
      countCalls 2 (vnmiSpinAcquire true 2 [false, true]
        ⟨some ⟨5, 7, {2}⟩, [], []⟩).calls :=
  ⟨rfl, by decide,
    (vnmi_spin_services_pending 2 ⟨some ⟨5, 7, {2}⟩, [], []⟩ ⟨5, 7, {2}⟩
      [true] rfl (by decide)).2.2.2⟩

end IPipe
